import Mathlib

/-!
Verification of the CS2 remote-memory access layer (src/cs2/src/handle.rs)
as a shallow embedding in Lean 4.

Machine integers (u64 / usize, both 64 bit here) are modelled as Nat with
explicit reduction modulo 2^64 wherever the Rust code performs wrapping
arithmetic (release-profile semantics: overflowing `+` wraps, and a
subsequent out-of-range slice index panics).  Fallible operations return an
explicit result type distinguishing a returned `anyhow` error from a thread
panic.  The privileged kernel channel (crate `kinterface`) is not part of
the sources; its request semantics are modelled from the spec where noted.
-/

set_option autoImplicit false

namespace CS2Verify

/-- 2^64, the modulus of u64 / 64-bit usize arithmetic. -/
def W : Nat := 2 ^ 64

/-- Wrapping 64-bit addition result: reduce a Nat modulo 2^64. -/
def wrap (n : Nat) : Nat := n % W

/-- Wrapping 64-bit subtraction a.wrapping_sub(b) for a b < 2^64. -/
def wsub (a b : Nat) : Nat := (W + a - b) % W

/-- Outcome of running one of the Rust functions: a returned value, a
returned anyhow error (with its message), or a thread panic. -/
inductive RunResult (α : Type) where
  | ok : α → RunResult α
  | error : String → RunResult α
  | panicked : String → RunResult α
  deriving DecidableEq, Repr

/-- Map over the ok value of a RunResult. -/
def RunResult.map {α β : Type} (f : α → β) : RunResult α → RunResult β
  | .ok a => .ok (f a)
  | .error e => .error e
  | .panicked p => .panicked p

/-- True iff the result is a returned error. -/
def RunResult.isError {α : Type} : RunResult α → Bool
  | .error _ => true
  | _ => false

/-- Modelled from the spec: the state of the privileged kernel channel
(crate kinterface, not in the sources).  It supports pointer-sized reads
and byte reads of target-process memory; a read returns none when the
underlying request fails (dead remote page, disconnected channel). -/
structure Channel where
  mem : Nat → Option Nat
  byte : Nat → Option Nat

/-- Is a byte a UTF-8 continuation byte (0x80..=0xBF)? -/
def utf8Cont (b : Nat) : Bool := 0x80 ≤ b && b ≤ 0xBF

/-- Strict UTF-8 validity of a byte sequence, as checked by Rust
str::from_utf8 (no overlong forms, no surrogates, max U+10FFFF). -/
def utf8Valid : List Nat → Bool
  | [] => true
  | b :: rest =>
    if b ≤ 0x7F then utf8Valid rest
    else if 0xC2 ≤ b ∧ b ≤ 0xDF then
      match rest with
      | c1 :: r => utf8Cont c1 && utf8Valid r
      | [] => false
    else if b = 0xE0 then
      match rest with
      | c1 :: c2 :: r => (0xA0 ≤ c1 && c1 ≤ 0xBF) && utf8Cont c2 && utf8Valid r
      | _ => false
    else if (0xE1 ≤ b ∧ b ≤ 0xEC) ∨ b = 0xEE ∨ b = 0xEF then
      match rest with
      | c1 :: c2 :: r => utf8Cont c1 && utf8Cont c2 && utf8Valid r
      | _ => false
    else if b = 0xED then
      match rest with
      | c1 :: c2 :: r => (0x80 ≤ c1 && c1 ≤ 0x9F) && utf8Cont c2 && utf8Valid r
      | _ => false
    else if b = 0xF0 then
      match rest with
      | c1 :: c2 :: c3 :: r =>
        (0x90 ≤ c1 && c1 ≤ 0xBF) && utf8Cont c2 && utf8Cont c3 && utf8Valid r
      | _ => false
    else if 0xF1 ≤ b ∧ b ≤ 0xF3 then
      match rest with
      | c1 :: c2 :: c3 :: r =>
        utf8Cont c1 && utf8Cont c2 && utf8Cont c3 && utf8Valid r
      | _ => false
    else if b = 0xF4 then
      match rest with
      | c1 :: c2 :: c3 :: r =>
        (0x80 ≤ c1 && c1 ≤ 0x8F) && utf8Cont c2 && utf8Cont c3 && utf8Valid r
      | _ => false
    else false

/-- kinterface::ModuleInfo: base address and size of one loaded module. -/
structure ModuleInfo where
  base_address : Nat
  module_size : Nat
  deriving DecidableEq, Repr

/-- kinterface::CS2ModuleInfo: the per-session module table. -/
structure CS2ModuleInfo where
  process_id : Nat
  client : ModuleInfo
  engine : ModuleInfo
  schemasystem : ModuleInfo
  deriving DecidableEq, Repr

/-- static EMPTY_MODULE_INFO: base 0, size usize::MAX. -/
def EMPTY_MODULE_INFO : ModuleInfo := { base_address := 0, module_size := W - 1 }

/-- enum Module from handle.rs. -/
inductive Module where
  | Absolute
  | Client
  | Engine
  | Schemasystem
  deriving DecidableEq, Repr

/-- Module::get_base_offset: resolve a module to its (base, size) entry.
Returns an Option exactly as the source does; every variant resolves. -/
def Module.get_base_offset : Module → CS2ModuleInfo → Option ModuleInfo
  | .Absolute, _ => some EMPTY_MODULE_INFO
  | .Client, mi => some mi.client
  | .Engine, mi => some mi.engine
  | .Schemasystem, mi => some mi.schemasystem

/-- struct CS2Handle: the session object.  The weak_self back reference of
the source is modelled at view-construction sites; the channel and the
immutable module table are the session state the operations read. -/
structure CS2Handle where
  chan : Channel
  module_info : CS2ModuleInfo

/-- Modelled from the spec: the channel's chained-offset resolution
(kinterface read, "raw byte reads at a list of chained offsets").  Starting
from the first offset as the address, every further offset first
dereferences the current address as a pointer-sized read and adds the
offset to the value read.  The second component records every address that
was dereferenced, in order (the mock channel of the spec's test). -/
def keChainAddrT (ch : Channel) : Nat → List Nat → Option Nat × List Nat
  | a, [] => (some a, [])
  | a, o :: os =>
    match ch.mem a with
    | none => (none, [a])
    | some v =>
      ((keChainAddrT ch (wrap (v + o)) os).1,
        a :: (keChainAddrT ch (wrap (v + o)) os).2)

/-- Final step of a chained u64 read: dereference the resolved address
(recording it in the trace), propagating a chain failure. -/
def finishU64 (ch : Channel) : Option Nat × List Nat → Option Nat × List Nat
  | (some a, tr) => (ch.mem a, tr ++ [a])
  | (none, tr) => (none, tr)

/-- Modelled from the spec: a kinterface chained read returning a
pointer-sized (u64) value: resolve the chain, then dereference the final
address.  Trace records every dereferenced address. -/
def keReadU64T (ch : Channel) : List Nat → Option Nat × List Nat
  | [] => (none, [])
  | o :: os => finishU64 ch (keChainAddrT ch o os)

/-- Lift a channel u64-read outcome (with its trace) into the run result
the caller of CS2Handle::read sees. -/
def liftChan : Option Nat × List Nat → RunResult Nat × List Nat
  | (some v, tr) => (.ok v, tr)
  | (none, tr) => (.error "channel read failed", tr)

/-- Modelled from the spec: a raw range read of size bytes starting at an
address (byte i is read at address + i in the wrapping 64-bit space);
fails as a whole when any byte read fails. -/
def chanReadRange (ch : Channel) (addr size : Nat) : Option (List Nat) :=
  (List.range size).mapM (fun i => ch.byte (wrap (addr + i)))

/-- Modelled from the spec: a kinterface chained read that fills a buffer
of size bytes at the chain's final address. -/
def keReadBytes (ch : Channel) (offsets : List Nat) (size : Nat) : Option (List Nat) :=
  match offsets with
  | [] => none
  | o :: os =>
    match (keChainAddrT ch o os).1 with
    | some a => chanReadRange ch a size
    | none => none

/-- Common body of CS2Handle::read and CS2Handle::read_slice: clone the
offsets, add the resolved module base to offsets[0] (the right-hand side
of the += is evaluated first, so an unresolvable module would error before
the index; an empty chain panics with an index-out-of-bounds), then issue
the chained channel read of size bytes. -/
def CS2Handle.chained_read (h : CS2Handle) (m : Module) (offsets : List Nat)
    (size : Nat) : RunResult (List Nat) :=
  match m.get_base_offset h.module_info with
  | none => .error "invalid module"
  | some mi =>
    match offsets with
    | [] => .panicked "index out of bounds: the len is 0 but the index is 0"
    | o :: rest =>
      match keReadBytes h.chan (wrap (o + mi.base_address) :: rest) size with
      | some bs => .ok bs
      | none => .error "channel read failed"

/-- CS2Handle::read monomorphized at a plain value type of the given byte
size: the value is represented by the bytes the channel returned. -/
def CS2Handle.read (h : CS2Handle) (size : Nat) (m : Module)
    (offsets : List Nat) : RunResult (List Nat) :=
  h.chained_read m offsets size

/-- CS2Handle::read_slice monomorphized at element type u8: returns the
filled buffer of len bytes. -/
def CS2Handle.read_slice (h : CS2Handle) (m : Module) (offsets : List Nat)
    (len : Nat) : RunResult (List Nat) :=
  h.chained_read m offsets len

/-- CS2Handle::read monomorphized at T = u64, as used by reference_schema:
the chained read returns the pointer-sized value at the chain's final
address.  The second component is the dereference trace. -/
def CS2Handle.readU64T (h : CS2Handle) (m : Module) (offsets : List Nat) :
    RunResult Nat × List Nat :=
  match m.get_base_offset h.module_info with
  | none => (.error "invalid module", [])
  | some mi =>
    match offsets with
    | [] => (.panicked "index out of bounds: the len is 0 but the index is 0", [])
    | o :: rest => liftChan (keReadU64T h.chan (wrap (o + mi.base_address) :: rest))

/-- CS2Handle::module_address: translate an absolute address back into a
module-relative offset, none when the address is outside [base,
base+size).  The sum base + size is a usize addition and wraps. -/
def CS2Handle.module_address (h : CS2Handle) (m : Module) (address : Nat) :
    Option Nat :=
  match m.get_base_offset h.module_info with
  | none => none
  | some mi =>
    if address < mi.base_address ∨ wrap (mi.base_address + mi.module_size) ≤ address
    then none
    else some (address - mi.base_address)

/-- CS2Handle::read_string with an explicit iteration budget: the source
loop is unbounded, so the embedding consumes one unit of fuel per loop
iteration (one channel read per iteration) and returns none when the
budget is exhausted before the loop returns. -/
def read_stringAux (h : CS2Handle) (m : Module) (offsets : List Nat) :
    Nat → Nat → Option (RunResult (List Nat))
  | _, 0 => none
  | len, fuel + 1 =>
    match h.read_slice m offsets len with
    | .error e => some (.error ("read_string: " ++ e))
    | .panicked p => some (.panicked p)
    | .ok bs =>
      if bs.contains 0 then
        let pre := bs.takeWhile (fun b => b != 0)
        if utf8Valid pre then some (.ok pre)
        else some (.error "invalid string contents")
      else read_stringAux h m offsets (len + 8) fuel

/-- CS2Handle::read_string: a returned string is represented by the list
of its UTF-8 bytes (the decoded prefix before the null terminator). -/
def CS2Handle.read_string (h : CS2Handle) (m : Module) (offsets : List Nat)
    (expected_length : Option Nat) (fuel : Nat) : Option (RunResult (List Nat)) :=
  read_stringAux h m offsets (expected_length.getD 8) fuel

/-- struct CSMemoryHandleCached: the Snapshot view.  The cs2 field models
the Weak back reference at the moment of the operation: some h when the
upgrade succeeds (handle still alive), none when the last strong owner of
the CS2Handle is gone. -/
structure CSMemoryHandleCached where
  cs2 : Option CS2Handle
  buffer : List Nat

/-- struct CSMemoryHandleReference: the Live view.  cs2 as in the Snapshot
view; address is the absolute remote address the view re-reads from. -/
structure CSMemoryHandleReference where
  cs2 : Option CS2Handle
  address : Nat

/-- dyn MemoryHandle: the closed set of the two view variants. -/
inductive MemHandle where
  | cached : CSMemoryHandleCached → MemHandle
  | reference : CSMemoryHandleReference → MemHandle

/-- Is the view Snapshot-backed? -/
def MemHandle.isCached : MemHandle → Bool
  | .cached _ => true
  | .reference _ => false

/-- Does a reference_memory result carry a Snapshot-backed view? -/
def RunResult.isOkCached : RunResult MemHandle → Bool
  | .ok m => m.isCached
  | _ => false

/-- Does a reference_memory result carry a Live-backed view? -/
def RunResult.isOkReference : RunResult MemHandle → Bool
  | .ok m => !m.isCached
  | _ => false

/-- CSMemoryHandleCached::read_slice: bounds check offset + slice.len()
against the owned buffer with a wrapping usize addition (release
profile), then copy from buffer[offset..offset+len].  When the wrapped
sum passes the check but the range is ill-formed, the slice index
panics; copy_from_slice panics on a source/destination length mismatch. -/
def CSMemoryHandleCached.read_slice (v : CSMemoryHandleCached)
    (offset len : Nat) : RunResult (List Nat) :=
  let sumw := wrap (offset + len)
  if v.buffer.length < sumw then .error "invalid offset"
  else if sumw < offset then .panicked "slice index out of range"
  else if sumw - offset ≠ len then .panicked "copy length mismatch"
  else .ok ((v.buffer.drop offset).take len)

/-- CS2Handle::read_memory: one-shot bulk read of size bytes at the
chain's final address into a fresh Snapshot view holding a weak back
reference to the handle. -/
def CS2Handle.read_memory (h : CS2Handle) (offsets : List Nat) (size : Nat) :
    RunResult MemHandle :=
  match h.read_slice Module.Absolute offsets size with
  | .ok bs => .ok (.cached ⟨some h, bs⟩)
  | .error e => .error e
  | .panicked p => .panicked p

/-- CS2Handle::reference_memory: a requested length of at most 0xFFFF
bytes is materialized as a Snapshot via read_memory; otherwise (larger, or
no length known) a Live reference view is produced without any read. -/
def CS2Handle.reference_memory (h : CS2Handle) (address : Nat)
    (size : Option Nat) : RunResult MemHandle :=
  match size with
  | some s =>
    if s ≤ 0xFFFF then h.read_memory [address] s
    else .ok (.reference ⟨some h, address⟩)
  | none => .ok (.reference ⟨some h, address⟩)

/-- CS2Handle::read_schema up to the externally supplied decode step: the
schema capability reports T::value_size(); a type without a size errors,
otherwise the whole value is fetched by read_memory.  The result is the
memory view the decoder would be handed (offset 0). -/
def CS2Handle.read_schema (h : CS2Handle) (value_size : Option Nat)
    (offsets : List Nat) : RunResult MemHandle :=
  match value_size with
  | none => .error "schema must have a size"
  | some s => h.read_memory offsets s

/-- Final step of reference_schema address resolution: add the last
offset to the value of the chained read, propagating its failures. -/
def finishRef (last : Nat) : RunResult Nat × List Nat → RunResult Nat × List Nat
  | (.ok v, tr) => (.ok (wrap (v + last)), tr)
  | (.error e, tr) => (.error e, tr)
  | (.panicked p, tr) => (.panicked p, tr)

/-- Address resolution of CS2Handle::reference_schema, with dereference
trace.  A single offset is the address itself; otherwise all offsets but
the last are resolved by a chained u64 read (module Absolute) and the last
offset is added to the value read.  An empty chain panics in the slice
expression offsets[0..len-1]. -/
def referenceSchemaAddressT (h : CS2Handle) (offsets : List Nat) :
    RunResult Nat × List Nat :=
  match offsets with
  | [] => (.panicked "range end index out of range", [])
  | [o] => (.ok o, [])
  | o0 :: o1 :: rest =>
    finishRef ((o0 :: o1 :: rest).getLastD 0)
      (h.readU64T Module.Absolute ((o0 :: o1 :: rest).dropLast))

/-- The final address reference_schema uses for its live view. -/
def referenceSchemaAddress (h : CS2Handle) (offsets : List Nat) : RunResult Nat :=
  (referenceSchemaAddressT h offsets).1

/-- CS2Handle::reference_schema up to the external decode step: resolve
the final address, then wrap it into a memory view via reference_memory
with T::value_size(). -/
def CS2Handle.reference_schema (h : CS2Handle) (value_size : Option Nat)
    (offsets : List Nat) : RunResult MemHandle :=
  match referenceSchemaAddress h offsets with
  | .ok a => h.reference_memory a value_size
  | .error e => .error e
  | .panicked p => .panicked p

/-- Modelled from the spec: the channel's pattern search restricted to the
window [base, base+size): it reports the lowest address in the window the
pattern (given as a match predicate on addresses) matches at, none when
the pattern is absent from the window. -/
def chanFindPattern (pat : Nat → Bool) (base size : Nat) : Option Nat :=
  ((List.range size).find? (fun i => pat (wrap (base + i)))).map
    (fun i => wrap (base + i))

/-- CS2Handle::find_pattern: search the module's window through the
channel and convert the absolute hit back to a module-relative offset by
a wrapping subtraction of the base. -/
def CS2Handle.find_pattern (h : CS2Handle) (m : Module) (pat : Nat → Bool) :
    RunResult (Option Nat) :=
  match m.get_base_offset h.module_info with
  | none => .error "invalid module"
  | some mi =>
    .ok ((chanFindPattern pat mi.base_address mi.module_size).map
      (fun a => wsub a mi.base_address))

/-- CSMemoryHandleCached::reference_memory: upgrade the weak back
reference (failing with the handle-dropped error) and delegate. -/
def CSMemoryHandleCached.reference_memory (v : CSMemoryHandleCached)
    (address : Nat) (length : Option Nat) : RunResult MemHandle :=
  match v.cs2 with
  | none => .error "cs2 handle has been dropped"
  | some h => h.reference_memory address length

/-- CSMemoryHandleCached::read_memory: upgrade the weak back reference
(failing with the handle-dropped error) and delegate. -/
def CSMemoryHandleCached.read_memory (v : CSMemoryHandleCached)
    (address : Nat) (length : Nat) : RunResult MemHandle :=
  match v.cs2 with
  | none => .error "cs2 handle has been dropped"
  | some h => h.read_memory [address] length

/-- CSMemoryHandleReference::read_slice: upgrade the weak back reference
(failing with the handle-dropped error), then re-fetch len bytes at the
absolute address self.address + offset (wrapping u64 addition). -/
def CSMemoryHandleReference.read_slice (v : CSMemoryHandleReference)
    (offset len : Nat) : RunResult (List Nat) :=
  match v.cs2 with
  | none => .error "cs2 handle has been dropped"
  | some h => h.read_slice Module.Absolute [wrap (v.address + offset)] len

/-- CSMemoryHandleReference::reference_memory: upgrade the weak back
reference (failing with the handle-dropped error) and delegate. -/
def CSMemoryHandleReference.reference_memory (v : CSMemoryHandleReference)
    (address : Nat) (length : Option Nat) : RunResult MemHandle :=
  match v.cs2 with
  | none => .error "cs2 handle has been dropped"
  | some h => h.reference_memory address length

/-- CSMemoryHandleReference::read_memory: upgrade the weak back reference
(failing with the handle-dropped error) and delegate. -/
def CSMemoryHandleReference.read_memory (v : CSMemoryHandleReference)
    (address : Nat) (length : Nat) : RunResult MemHandle :=
  match v.cs2 with
  | none => .error "cs2 handle has been dropped"
  | some h => h.read_memory [address] length

/-- The spec's offset-chain resolution rule, written from its words: walk
the chain from the base address, dereference every element except the last
(add the element to the current address and read a pointer-sized value
there, which becomes the next address), and add the final element without
dereferencing it.  none when a dereference fails or the chain is empty. -/
def specChainResolve (ch : Channel) : Nat → List Nat → Option Nat
  | _, [] => none
  | addr, [o] => some (wrap (addr + o))
  | addr, o :: o1 :: rest =>
    match ch.mem (wrap (addr + o)) with
    | none => none
    | some v => specChainResolve ch v (o1 :: rest)

/-- Lift a channel u64-read result into the run-result a caller of
CS2Handle::read sees (errors carry the modelled channel failure text). -/
def ofChanRead : Option Nat → RunResult Nat
  | some v => .ok v
  | none => .error "channel read failed"

/-- A channel whose pointer reads yield 2 * address + 100 and whose byte
reads yield the address modulo 251; every read succeeds. -/
def chanAffine : Channel :=
  { mem := fun a => some (wrap (2 * a + 100)), byte := fun a => some (a % 251) }

/-- A channel whose reads all succeed with zero values. -/
def chanZero : Channel :=
  { mem := fun _ => some 0, byte := fun _ => some 0 }

/-- A module table whose entries are all at base 0 with size 0. -/
def miZero : CS2ModuleInfo :=
  { process_id := 0
    client := { base_address := 0, module_size := 0 }
    engine := { base_address := 0, module_size := 0 }
    schemasystem := { base_address := 0, module_size := 0 } }

/-- Concrete handle for the C1 witness. -/
def hC1 : CS2Handle := { chan := chanAffine, module_info := miZero }

/-- Concrete handle for the C2 counterexample and witness. -/
def hC2 : CS2Handle := { chan := chanZero, module_info := miZero }

/-- Concrete handle for the C3 counterexample and witness. -/
def hC3 : CS2Handle := { chan := chanZero, module_info := miZero }

/-- Concrete handle for the C5 counterexample and witness: the client
module is loaded at base 0x1000, and the remote bytes differ between
address 0 (byte 7) and address 0x1000 (byte 9), so a read through the
client module and an absolute read at the same offset are observably
different. -/
def hC5 : CS2Handle :=
  { chan :=
      { mem := fun _ => some 0
        byte := fun a => some (if a < 0x1000 then 7 else 9) }
    module_info :=
      { process_id := 1
        client := { base_address := 0x1000, module_size := 0x1000 }
        engine := { base_address := 0, module_size := 0 }
        schemasystem := { base_address := 0, module_size := 0 } } }

/-- Concrete handle for the C6 witness: the remote bytes at addresses
0, 1, 2 spell "abc" and every other byte is the null terminator. -/
def hC6 : CS2Handle :=
  { chan :=
      { mem := fun _ => some 0
        byte := fun a =>
          some (if a = 0 then 97 else if a = 1 then 98 else if a = 2 then 99 else 0) }
    module_info := miZero }

/-- Concrete handle for the C7 witness: the client module occupies
[16, 32). -/
def hC7 : CS2Handle :=
  { chan := chanZero
    module_info :=
      { process_id := 1
        client := { base_address := 16, module_size := 16 }
        engine := { base_address := 0, module_size := 0 }
        schemasystem := { base_address := 0, module_size := 0 } } }

/-- Concrete handle for the C8 counterexample: the client module's base
and size sum past the 64-bit boundary (base 2^64 - 1, size 2). -/
def hC8 : CS2Handle :=
  { chan := chanZero
    module_info :=
      { process_id := 1
        client := { base_address := W - 1, module_size := 2 }
        engine := { base_address := 0, module_size := 0 }
        schemasystem := { base_address := 0, module_size := 0 } } }

/-- Concrete handle for the C8 witness: the client module occupies
[16, 32). -/
def hC8w : CS2Handle :=
  { chan := chanZero
    module_info :=
      { process_id := 1
        client := { base_address := 16, module_size := 16 }
        engine := { base_address := 0, module_size := 0 }
        schemasystem := { base_address := 0, module_size := 0 } } }

/-- C4 counterexample: a Snapshot view whose backing handle has been
dropped still answers an in-bounds read_slice from its own buffer with
success; it does not fail with the handle-dropped error, so not every
operation on such a view fails with HandleDropped. -/
theorem c4_counterexample :
    CSMemoryHandleCached.read_slice ⟨none, [42]⟩ 0 1 = .ok [42] ∧
    CSMemoryHandleCached.read_slice ⟨none, [42]⟩ 0 1
        ≠ .error "cs2 handle has been dropped" := by
  exact ⟨by decide, by decide⟩

/-- C4 (amended): on a view whose backing handle has been dropped, every
operation that needs the handle fails with the handle-dropped error:
reference_memory and read_memory on both view variants, and read_slice on
the Live variant.  The Snapshot variant's read_slice reads its own buffer
and is not affected by the drop. -/
theorem c4_dropped_handle_operations_fail :
    ∀ (buffer : List Nat) (address a2 : Nat) (olen : Option Nat) (len offset n : Nat),
    CSMemoryHandleCached.reference_memory ⟨none, buffer⟩ a2 olen
        = .error "cs2 handle has been dropped" ∧
    CSMemoryHandleCached.read_memory ⟨none, buffer⟩ a2 len
        = .error "cs2 handle has been dropped" ∧
    CSMemoryHandleReference.read_slice ⟨none, address⟩ offset n
        = .error "cs2 handle has been dropped" ∧
    CSMemoryHandleReference.reference_memory ⟨none, address⟩ a2 olen
        = .error "cs2 handle has been dropped" ∧
    CSMemoryHandleReference.read_memory ⟨none, address⟩ a2 len
        = .error "cs2 handle has been dropped" := by
  intro buffer address a2 olen len offset n
  exact ⟨rfl, rfl, rfl, rfl, rfl⟩

/-- C10: a Snapshot view's read_slice never consults the weak back
reference (the result is the same whatever that reference holds, in
particular after the handle is dropped), and an in-bounds request
succeeds with the bytes captured at creation time. -/
theorem c10_snapshot_read_survives_drop :
    ∀ (c : Option CS2Handle) (buffer : List Nat) (offset len : Nat),
    CSMemoryHandleCached.read_slice ⟨c, buffer⟩ offset len
        = CSMemoryHandleCached.read_slice ⟨none, buffer⟩ offset len ∧
    (offset + len ≤ buffer.length → offset + len < W →
      CSMemoryHandleCached.read_slice ⟨none, buffer⟩ offset len
          = .ok ((buffer.drop offset).take len)) := by
  intro c buffer offset len
  constructor
  · rfl
  · intro h1 h2
    unfold CSMemoryHandleCached.read_slice
    simp only [wrap, Nat.mod_eq_of_lt h2]
    rw [if_neg (by omega), if_neg (by omega), if_neg (by omega)]

/-- C10 witness: concrete in-bounds read on a dropped-handle Snapshot. -/
theorem c10_witness :
    CSMemoryHandleCached.read_slice ⟨none, [1, 2, 3]⟩ 1 2 = .ok [2, 3] := by
  have h := (c10_snapshot_read_survives_drop none [1, 2, 3] 1 2).2
      (by decide) (by decide)
  exact h.trans (by decide)

/-- C9 counterexample: when offset + slice.len() wraps around the machine
word, the Snapshot read_slice panics in the slice expression instead of
returning an error, so the no-panic part of the claim fails. -/
theorem c9_counterexample :
    CSMemoryHandleCached.read_slice ⟨none, [0]⟩ (W - 1) 2
        = .panicked "slice index out of range" ∧
    W ≤ (W - 1) + 2 := by
  exact ⟨by decide, by decide⟩

/-- C9 (amended): whenever offset + slice.len() does not overflow the
machine word, the Snapshot read_slice either copies exactly len bytes
starting at offset out of the owned buffer (when the range fits) or
returns the invalid-offset error (when it does not); it never silently
truncates.  On overflow the bounds check wraps and the code panics. -/
theorem c9_snapshot_read_slice_bounds :
    ∀ (v : CSMemoryHandleCached) (offset len : Nat), offset + len < W →
    (offset + len ≤ v.buffer.length →
      v.read_slice offset len = .ok ((v.buffer.drop offset).take len) ∧
      ((v.buffer.drop offset).take len).length = len) ∧
    (v.buffer.length < offset + len →
      v.read_slice offset len = .error "invalid offset") := by
  intro v offset len hw
  constructor
  · intro hin
    constructor
    · unfold CSMemoryHandleCached.read_slice
      simp only [wrap, Nat.mod_eq_of_lt hw]
      rw [if_neg (by omega), if_neg (by omega), if_neg (by omega)]
    · simp only [List.length_take, List.length_drop]
      omega
  · intro hout
    unfold CSMemoryHandleCached.read_slice
    simp only [wrap, Nat.mod_eq_of_lt hw]
    rw [if_pos (by omega)]

/-- C9 witness: a concrete in-range copy and a concrete out-of-range
request on Snapshot views. -/
theorem c9_witness :
    CSMemoryHandleCached.read_slice ⟨none, [5, 6, 7]⟩ 1 2 = .ok [6, 7] ∧
    CSMemoryHandleCached.read_slice ⟨none, [5]⟩ 0 2 = .error "invalid offset" := by
  constructor
  · have h := ((c9_snapshot_read_slice_bounds ⟨none, [5, 6, 7]⟩ 1 2
        (by decide)).1 (by decide)).1
    exact h.trans (by decide)
  · exact (c9_snapshot_read_slice_bounds ⟨none, [5]⟩ 0 2 (by decide)).2 (by decide)

/-- C2 counterexample: a requested length of exactly 65536 bytes yields a
Live reference view, not a Snapshot: the code's threshold test is
size <= 0xFFFF, i.e. strictly less than 64 KiB. -/
theorem c2_counterexample :
    RunResult.isOkCached (hC2.reference_memory 0 (some 65536)) = false ∧
    hC2.reference_memory 0 (some 65536) = .ok (.reference ⟨some hC2, 0⟩) := by
  exact ⟨rfl, rfl⟩

/-- C2 (amended): reference_memory materializes a Snapshot for requested
lengths of at most 65535 bytes (whenever it returns ok, the view is
Snapshot-backed), and keeps a Live reference for lengths of 65536 bytes
and above, as well as when no length is given; the boundary length 65536
is Live. -/
theorem c2_reference_memory_threshold :
    ∀ (h : CS2Handle) (a s : Nat),
    (s ≤ 0xFFFF → h.reference_memory a (some s) = h.read_memory [a] s ∧
      ∀ mh, h.read_memory [a] s = .ok mh → mh.isCached = true) ∧
    (0xFFFF < s → h.reference_memory a (some s) = .ok (.reference ⟨some h, a⟩)) ∧
    h.reference_memory a none = .ok (.reference ⟨some h, a⟩) := by
  intro h a s
  refine ⟨fun hs => ⟨?_, ?_⟩, fun hs => ?_, rfl⟩
  · simp only [CS2Handle.reference_memory]
    rw [if_pos hs]
  · intro mh hmh
    unfold CS2Handle.read_memory at hmh
    cases hrs : h.read_slice Module.Absolute [a] s with
    | ok bs => rw [hrs] at hmh; cases hmh; rfl
    | error e => rw [hrs] at hmh; cases hmh
    | panicked p => rw [hrs] at hmh; cases hmh
  · simp only [CS2Handle.reference_memory]
    rw [if_neg (by omega)]

/-- C2 witness: the threshold applied at 65535 (Snapshot path) and at
70000 (Live path) on a concrete handle. -/
theorem c2_witness :
    hC2.reference_memory 0 (some 65535) = hC2.read_memory [0] 65535 ∧
    hC2.reference_memory 0 (some 70000) = .ok (.reference ⟨some hC2, 0⟩) := by
  exact ⟨((c2_reference_memory_threshold hC2 0 65535).1 (by decide)).1,
    (c2_reference_memory_threshold hC2 0 70000).2.1 (by decide)⟩

/-- C3 counterexample: read with an offset chain of length zero panics
with an index-out-of-bounds (offsets[0] on the empty cloned vector)
instead of returning an error to the caller. -/
theorem c3_counterexample :
    hC3.read 4 Module.Client []
        = .panicked "index out of bounds: the len is 0 but the index is 0" ∧
    (hC3.read 4 Module.Client []).isError = false := by
  exact ⟨rfl, rfl⟩

/-- C3 (amended): read with an empty offset chain panics with an
index-out-of-bounds before any channel read (the result does not depend
on the channel state); module resolution never fails (get_base_offset
resolves every variant); and with a nonempty chain the call returns the
channel bytes on success and an error exactly when the channel read
fails. -/
theorem c3_read_failure_modes :
    ∀ (h : CS2Handle) (size : Nat) (m : Module),
    (∀ ch : Channel, CS2Handle.read ⟨ch, h.module_info⟩ size m []
        = .panicked "index out of bounds: the len is 0 but the index is 0") ∧
    (m.get_base_offset h.module_info).isSome = true ∧
    (∀ o rest bs,
      keReadBytes h.chan
          (wrap (o + ((m.get_base_offset h.module_info).getD
            EMPTY_MODULE_INFO).base_address) :: rest) size = some bs →
      h.read size m (o :: rest) = .ok bs) ∧
    (∀ o rest,
      keReadBytes h.chan
          (wrap (o + ((m.get_base_offset h.module_info).getD
            EMPTY_MODULE_INFO).base_address) :: rest) size = none →
      h.read size m (o :: rest) = .error "channel read failed") := by
  intro h size m
  obtain ⟨mi, hmi⟩ : ∃ mi, m.get_base_offset h.module_info = some mi := by
    cases m <;> exact ⟨_, rfl⟩
  refine ⟨?_, ?_, ?_, ?_⟩
  · intro ch
    unfold CS2Handle.read CS2Handle.chained_read
    have hmi2 : m.get_base_offset (CS2Handle.mk ch h.module_info).module_info
        = some mi := hmi
    rw [hmi2]
  · rw [hmi]; rfl
  · intro o rest bs hke
    rw [hmi] at hke
    simp only [Option.getD] at hke
    simp only [CS2Handle.read, CS2Handle.chained_read, hmi]
    rw [hke]
  · intro o rest hke
    rw [hmi] at hke
    simp only [Option.getD] at hke
    simp only [CS2Handle.read, CS2Handle.chained_read, hmi]
    rw [hke]

/-- C3 witness: concrete error-free read through a nonempty chain, and
the concrete panic on the empty chain. -/
theorem c3_witness :
    hC3.read 1 Module.Client [5] = .ok [0] ∧
    CS2Handle.read ⟨chanZero, hC3.module_info⟩ 1 Module.Client []
        = .panicked "index out of bounds: the len is 0 but the index is 0" := by
  refine ⟨?_, (c3_read_failure_modes hC3 1 Module.Client).1 chanZero⟩
  exact (c3_read_failure_modes hC3 1 Module.Client).2.2.1 5 [] [0] (by decide)

/-- C8 counterexample: a module whose base and size sum past the 64-bit
boundary (base 2^64 - 1, size 2): the address 2^64 - 1 lies within
[base, base + size) in the arithmetic sense, yet module_address returns
none because the bound check uses the wrapped sum. -/
theorem c8_counterexample :
    hC8.module_address Module.Client (W - 1) = none ∧
    (W - 1) ≤ (W - 1) ∧ (W - 1) < (W - 1) + 2 := by
  refine ⟨by decide, le_refl _, by omega⟩

/-- C8 (amended): for every module whose resolved base and size do not
overflow the machine word (base + size < 2^64, true of every real module
table and of the Absolute sentinel), module_address returns
some (address - base) exactly when base <= address < base + size and
none otherwise.  When base + size wraps past 2^64 the comparison uses
the wrapped bound instead. -/
theorem c8_module_address_window :
    ∀ (h : CS2Handle) (m : Module) (address : Nat),
    ((m.get_base_offset h.module_info).getD EMPTY_MODULE_INFO).base_address
        + ((m.get_base_offset h.module_info).getD EMPTY_MODULE_INFO).module_size < W →
    h.module_address m address =
      if ((m.get_base_offset h.module_info).getD EMPTY_MODULE_INFO).base_address ≤ address
          ∧ address < ((m.get_base_offset h.module_info).getD EMPTY_MODULE_INFO).base_address
            + ((m.get_base_offset h.module_info).getD EMPTY_MODULE_INFO).module_size
      then some (address
        - ((m.get_base_offset h.module_info).getD EMPTY_MODULE_INFO).base_address)
      else none := by
  intro h m address hw
  obtain ⟨mi, hmi⟩ : ∃ mi, m.get_base_offset h.module_info = some mi := by
    cases m <;> exact ⟨_, rfl⟩
  rw [hmi] at hw ⊢
  simp only [Option.getD] at hw ⊢
  unfold CS2Handle.module_address
  rw [hmi]
  simp only [wrap, Nat.mod_eq_of_lt hw]
  by_cases hc : mi.base_address ≤ address ∧ address < mi.base_address + mi.module_size
  · rw [if_neg (by omega), if_pos hc]
  · rw [if_pos (by omega), if_neg hc]

/-- C8 witness: address 20 inside the client module window [16, 32)
maps back to the module-relative offset 4. -/
theorem c8_witness : hC8w.module_address Module.Client 20 = some 4 := by
  have h := c8_module_address_window hC8w Module.Client 20 (by decide)
  rw [h]
  decide

/-- C5 counterexample: with the client module loaded at base 0x1000 and
remote bytes that differ between addresses 0 and 0x1000, read through the
client module with the one-element chain [0] copies the byte at 0x1000
while read_schema with the same chain copies the byte at 0: the two do
not resolve the same address or byte range, because read_schema never
adds a module base. -/
theorem c5_counterexample :
    hC5.read 1 Module.Client [0] = .ok [9] ∧
    hC5.read_schema (some 1) [0] = .ok (.cached ⟨some hC5, [7]⟩) ∧
    (9 : Nat) ≠ 7 := by
  refine ⟨by decide, ?_, by decide⟩
  rfl

/-- C5 (amended): for every module resolving to base address 0 (in
particular Module.Absolute) and every one-element chain, read_schema
fetches exactly the bytes read::<T> fetches at the same final address
and the same byte count, wrapped into a Snapshot view; errors coincide
as well. -/
theorem c5_read_schema_agrees_at_base_zero :
    ∀ (h : CS2Handle) (s o : Nat) (m : Module),
    ((m.get_base_offset h.module_info).getD EMPTY_MODULE_INFO).base_address = 0 →
    h.read_schema (some s) [o] =
      RunResult.map (fun bs => MemHandle.cached ⟨some h, bs⟩) (h.read s m [o]) := by
  intro h s o m hb
  obtain ⟨mi, hmi⟩ : ∃ mi, m.get_base_offset h.module_info = some mi := by
    cases m <;> exact ⟨_, rfl⟩
  rw [hmi] at hb
  simp only [Option.getD] at hb
  have hr : h.read s m [o] =
      (match keReadBytes h.chan [wrap (o + mi.base_address)] s with
        | some bs => RunResult.ok bs
        | none => RunResult.error "channel read failed") := by
    simp only [CS2Handle.read, CS2Handle.chained_read, hmi]
  rw [hb] at hr
  have hl : h.read_schema (some s) [o] =
      (match (match keReadBytes h.chan [wrap (o + 0)] s with
          | some bs => RunResult.ok bs
          | none => RunResult.error "channel read failed") with
        | RunResult.ok bs => RunResult.ok (MemHandle.cached ⟨some h, bs⟩)
        | RunResult.error e => RunResult.error e
        | RunResult.panicked p => RunResult.panicked p) := rfl
  rw [hl, hr]
  cases keReadBytes h.chan [wrap (o + 0)] s with
  | some bs => rfl
  | none => rfl

/-- C5 witness: at module Absolute both paths fetch the same single byte
at address 0. -/
theorem c5_witness :
    hC5.read_schema (some 1) [0] =
      RunResult.map (fun bs => MemHandle.cached ⟨some hC5, bs⟩)
        (hC5.read 1 Module.Absolute [0]) := by
  exact c5_read_schema_agrees_at_base_zero hC5 1 0 Module.Absolute rfl

/-- C6: read_string with no length hint starts with an 8-byte read; when
the buffer the channel returned contains a null terminator and the bytes
before it are valid UTF-8, the call returns that prefix within a single
iteration (one channel read, fuel 1 suffices); when the buffer contains
no null the loop retries with the guess grown by exactly 8 bytes (and
nothing else changes, so the growth is unbounded in the fuel); and when
the bytes before the null are not valid UTF-8 the call fails with the
invalid-string-contents error. -/
theorem c6_read_string_behaviour :
    ∀ (h : CS2Handle) (m : Module) (offsets bs : List Nat) (len fuel : Nat),
    (h.read_slice m offsets 8 = .ok bs → bs.contains 0 = true →
      utf8Valid (bs.takeWhile (fun b => b != 0)) = true →
      h.read_string m offsets none 1
          = some (.ok (bs.takeWhile (fun b => b != 0)))) ∧
    (h.read_slice m offsets len = .ok bs → bs.contains 0 = false →
      read_stringAux h m offsets len (fuel + 1)
          = read_stringAux h m offsets (len + 8) fuel) ∧
    (h.read_slice m offsets 8 = .ok bs → bs.contains 0 = true →
      utf8Valid (bs.takeWhile (fun b => b != 0)) = false →
      h.read_string m offsets none (fuel + 1)
          = some (.error "invalid string contents")) := by
  intro h m offsets bs len fuel
  refine ⟨?_, ?_, ?_⟩
  · intro hr hc hv
    unfold CS2Handle.read_string
    simp only [Option.getD]
    conv_lhs => unfold read_stringAux
    rw [hr]
    show (if bs.contains 0 = true then
        if utf8Valid (List.takeWhile (fun b => b != 0) bs) = true then
          some (RunResult.ok (List.takeWhile (fun b => b != 0) bs))
        else some (RunResult.error "invalid string contents")
      else read_stringAux h m offsets (8 + 8) 0)
      = some (RunResult.ok (List.takeWhile (fun b => b != 0) bs))
    rw [if_pos hc, if_pos hv]
  · intro hr hc
    conv_lhs => unfold read_stringAux
    rw [hr]
    show (if bs.contains 0 = true then
        if utf8Valid (List.takeWhile (fun b => b != 0) bs) = true then
          some (RunResult.ok (List.takeWhile (fun b => b != 0) bs))
        else some (RunResult.error "invalid string contents")
      else read_stringAux h m offsets (len + 8) fuel)
      = read_stringAux h m offsets (len + 8) fuel
    rw [if_neg (by rw [hc]; simp)]
  · intro hr hc hv
    unfold CS2Handle.read_string
    simp only [Option.getD]
    conv_lhs => unfold read_stringAux
    rw [hr]
    show (if bs.contains 0 = true then
        if utf8Valid (List.takeWhile (fun b => b != 0) bs) = true then
          some (RunResult.ok (List.takeWhile (fun b => b != 0) bs))
        else some (RunResult.error "invalid string contents")
      else read_stringAux h m offsets (8 + 8) fuel)
      = some (RunResult.error "invalid string contents")
    rw [if_pos hc, if_neg (by simp [hv])]

/-- C6 witness: the remote bytes at the chain target spell "abc" followed
by null terminators; read_string with no hint returns the three bytes of
"abc" with a single unit of fuel, i.e. in one round-trip. -/
theorem c6_witness :
    hC6.read_string Module.Absolute [0] none 1 = some (.ok [97, 98, 99]) := by
  have h := (c6_read_string_behaviour hC6 Module.Absolute [0]
      [97, 98, 99, 0, 0, 0, 0, 0] 0 0).1 (by decide) (by decide) (by decide)
  exact h.trans (by decide)

/-- C7: find_pattern on a module resolving to (base, size) with
base + size within the machine word: every reported hit is a
module-relative offset o with base + o inside [base, base + size); a
pattern matching nowhere in the window yields the successful empty
result ok none; and the call always returns ok, never an error. -/
theorem c7_find_pattern_window :
    ∀ (h : CS2Handle) (m : Module) (pat : Nat → Bool) (mi : ModuleInfo),
    m.get_base_offset h.module_info = some mi →
    mi.base_address + mi.module_size ≤ W →
    (∀ o, h.find_pattern m pat = .ok (some o) →
      mi.base_address ≤ mi.base_address + o ∧
      mi.base_address + o < mi.base_address + mi.module_size) ∧
    ((∀ i, i < mi.module_size → pat (mi.base_address + i) = false) →
      h.find_pattern m pat = .ok none) ∧
    (∃ r, h.find_pattern m pat = .ok r) := by
  intro h m pat mi hmi hw
  have hfp : h.find_pattern m pat =
      .ok ((chanFindPattern pat mi.base_address mi.module_size).map
        (fun a => wsub a mi.base_address)) := by
    simp only [CS2Handle.find_pattern, hmi]
  refine ⟨?_, ?_, ?_⟩
  · intro o ho
    rw [hfp] at ho
    have hmap : (chanFindPattern pat mi.base_address mi.module_size).map
        (fun a => wsub a mi.base_address) = some o := by
      cases hcf : (chanFindPattern pat mi.base_address mi.module_size).map
          (fun a => wsub a mi.base_address) with
      | some x => rw [hcf] at ho; cases ho; rfl
      | none => rw [hcf] at ho; cases ho
    obtain ⟨a, ha, hao⟩ := Option.map_eq_some'.mp hmap
    unfold chanFindPattern at ha
    obtain ⟨i, hfind, hia⟩ := Option.map_eq_some'.mp ha
    have hi : i < mi.module_size := by
      have := List.mem_of_find?_eq_some hfind
      exact List.mem_range.mp this
    have hlt : mi.base_address + i < W := by omega
    have hwi : wrap (mi.base_address + i) = mi.base_address + i :=
      Nat.mod_eq_of_lt hlt
    have hoi : o = i := by
      rw [← hao, ← hia, hwi]
      unfold wsub
      have : W + (mi.base_address + i) - mi.base_address = W + i := by omega
      rw [this, Nat.add_mod_left, Nat.mod_eq_of_lt (by omega)]
    subst hoi
    omega
  · intro habsent
    rw [hfp]
    have hnone : chanFindPattern pat mi.base_address mi.module_size = none := by
      unfold chanFindPattern
      rw [List.find?_eq_none.mpr]
      · rfl
      · intro i hi
        have hir : i < mi.module_size := List.mem_range.mp hi
        have hlt : mi.base_address + i < W := by omega
        rw [wrap, Nat.mod_eq_of_lt hlt]
        simp [habsent i hir]
    rw [hnone]
    rfl
  · exact ⟨_, hfp⟩

/-- C7 witness: the client module occupies [16, 32) and the pattern
matches exactly at address 20; find_pattern reports the relative offset
4, which lies inside the module window. -/
theorem c7_witness :
    hC7.find_pattern Module.Client (fun a => a == 20) = .ok (some 4) ∧
    16 ≤ 16 + 4 ∧ 16 + 4 < 16 + 16 := by
  have h := (c7_find_pattern_window hC7 Module.Client (fun a => a == 20)
      ⟨16, 16⟩ rfl (by decide)).1 4 (by decide)
  exact ⟨by decide, h⟩

/-- A successful chain resolution dereferences exactly one address per
offset consumed: the trace has one entry per list element. -/
theorem keChainAddrT_trace_length (ch : Channel) :
    ∀ (os : List Nat) (a r : Nat) (t : List Nat),
    keChainAddrT ch a os = (some r, t) → t.length = os.length := by
  intro os
  induction os with
  | nil =>
    intro a r t hk
    simp only [keChainAddrT] at hk
    injection hk with h1 h2
    rw [← h2]
  | cons o os ih =>
    intro a r t hk
    simp only [keChainAddrT] at hk
    cases hm : ch.mem a with
    | none =>
      rw [hm] at hk
      injection hk with h1 h2
      simp at h1
    | some v =>
      rw [hm] at hk
      injection hk with h1 h2
      cases hrec : keChainAddrT ch (wrap (v + o)) os with
      | mk f2 t2 =>
        rw [hrec] at h1 h2
        have h1x : f2 = some r := h1
        have h2x : a :: t2 = t := h2
        have hlen := ih (wrap (v + o)) r t2 (by rw [hrec, h1x])
        rw [← h2x]
        simp [hlen]

/-- A successful chained u64 read dereferences exactly one address per
offset (the chain steps plus the final value read). -/
theorem keReadU64T_some_trace (ch : Channel) (offsets : List Nat) (v : Nat)
    (tr : List Nat) :
    keReadU64T ch offsets = (some v, tr) → tr.length = offsets.length := by
  intro hk
  cases offsets with
  | nil => simp [keReadU64T] at hk
  | cons o os =>
    simp only [keReadU64T] at hk
    cases hc : keChainAddrT ch o os with
    | mk f t =>
      rw [hc] at hk
      cases f with
      | some a =>
        simp only [finishU64] at hk
        injection hk with h1 h2
        rw [← h2, List.length_append,
          keChainAddrT_trace_length ch os o a t hc]
        rfl
      | none =>
        simp only [finishU64] at hk
        injection hk with h1 h2
        simp at h1

/-- An ok result of the u64 read wrapper carries a dereference trace of
one entry per offset. -/
theorem readU64T_ok_trace (h : CS2Handle) (m : Module) (offsets : List Nat)
    (v : Nat) (tr : List Nat) :
    h.readU64T m offsets = (.ok v, tr) → tr.length = offsets.length := by
  intro hu
  obtain ⟨mi, hmi⟩ : ∃ mi, m.get_base_offset h.module_info = some mi := by
    cases m <;> exact ⟨_, rfl⟩
  cases offsets with
  | nil => simp [CS2Handle.readU64T, hmi] at hu
  | cons o rest =>
    simp only [CS2Handle.readU64T, hmi] at hu
    cases hk : keReadU64T h.chan (wrap (o + mi.base_address) :: rest) with
    | mk f t =>
      rw [hk] at hu
      cases f with
      | some w =>
        simp only [liftChan] at hu
        injection hu with h1 h2
        have := keReadU64T_some_trace h.chan
          (wrap (o + mi.base_address) :: rest) w t hk
        rw [← h2, this]
        rfl
      | none => simp [liftChan] at hu

/-- The spec's resolution formula on a chain written head plus middle
plus final element agrees with a channel chain walk over the middle
followed by one dereference and the final addition. -/
theorem specChainResolve_concat (ch : Channel) :
    ∀ (os : List Nat) (addr o last : Nat),
    specChainResolve ch addr (o :: (os ++ [last])) =
      (((keChainAddrT ch (wrap (addr + o)) os).1.bind ch.mem).map
        (fun v => wrap (v + last))) := by
  intro os
  induction os with
  | nil =>
    intro addr o last
    cases hm : ch.mem (wrap (addr + o)) with
    | none => simp [specChainResolve, keChainAddrT, hm]
    | some v => simp [specChainResolve, keChainAddrT, hm]
  | cons b os ih =>
    intro addr o last
    cases hm : ch.mem (wrap (addr + o)) with
    | none => simp [specChainResolve, keChainAddrT, hm]
    | some v =>
      simp only [List.cons_append, specChainResolve, keChainAddrT, hm]
      exact ih v b last

/-- The reference_schema address on a chain of length at least two
(written as head plus middle plus final element) is the chained u64 read
of all but the last element plus the last element. -/
theorem refSchemaAddress_concat (h : CS2Handle) :
    ∀ (os : List Nat) (o0 last : Nat), o0 < W →
    referenceSchemaAddress h (o0 :: (os ++ [last])) =
      ofChanRead (((keChainAddrT h.chan o0 os).1.bind h.chan.mem).map
        (fun v => wrap (v + last))) := by
  intro os o0 last hb
  have hw0 : wrap (o0 + EMPTY_MODULE_INFO.base_address) = o0 := by
    simp [wrap, EMPTY_MODULE_INFO, Nat.mod_eq_of_lt hb]
  cases os with
  | nil =>
    show (referenceSchemaAddressT h (o0 :: ([] ++ [last]))).1 = _
    rw [show referenceSchemaAddressT h (o0 :: ([] ++ [last]))
        = finishRef last (liftChan (finishU64 h.chan
          (keChainAddrT h.chan (wrap (o0 + EMPTY_MODULE_INFO.base_address)) [])))
      from rfl]
    rw [hw0]
    show (finishRef last (liftChan (h.chan.mem o0, [o0]))).1 = _
    cases hm : h.chan.mem o0 with
    | none => simp [finishRef, liftChan, keChainAddrT, ofChanRead, hm]
    | some v => simp [finishRef, liftChan, keChainAddrT, ofChanRead, hm]
  | cons b os2 =>
    have hdl : (o0 :: b :: (os2 ++ [last])).dropLast = o0 :: b :: os2 := by
      rw [show o0 :: b :: (os2 ++ [last]) = (o0 :: b :: os2) ++ [last] by simp,
        List.dropLast_concat]
    have hgl : (o0 :: b :: (os2 ++ [last])).getLastD 0 = last := by
      rw [show o0 :: b :: (os2 ++ [last]) = (o0 :: b :: os2) ++ [last] by simp]
      exact List.getLastD_concat 0 last (o0 :: b :: os2)
    show (referenceSchemaAddressT h (o0 :: (b :: os2) ++ [last])).1 = _
    have hstep : referenceSchemaAddressT h (o0 :: (b :: os2) ++ [last])
        = finishRef last (h.readU64T Module.Absolute (o0 :: b :: os2)) := by
      simp only [List.cons_append, referenceSchemaAddressT, hdl, hgl]
    rw [hstep]
    have hstep2 : h.readU64T Module.Absolute (o0 :: b :: os2)
        = liftChan (finishU64 h.chan (keChainAddrT h.chan o0 (b :: os2))) := by
      simp only [CS2Handle.readU64T, Module.get_base_offset, keReadU64T, hw0]
    rw [hstep2]
    cases hc : keChainAddrT h.chan o0 (b :: os2) with
    | mk f t =>
      cases f with
      | some a =>
        cases hm : h.chan.mem a with
        | none => simp [finishRef, liftChan, finishU64, ofChanRead, hm]
        | some v => simp [finishRef, liftChan, finishU64, ofChanRead, hm]
      | none => simp [finishRef, liftChan, finishU64, ofChanRead]

/-- C1: reference_schema resolves its final address exactly by the spec's
chain rule: for a nonempty chain of u64 offsets the resulting address (or
propagated channel failure) equals walking the chain from base 0,
dereferencing every element except the last and adding the last without
dereferencing it; every successful resolution of a chain of length n
dereferences exactly n - 1 addresses; and a chain of length one yields
its element as the address with an empty dereference trace. -/
theorem c1_reference_schema_resolution :
    ∀ (h : CS2Handle) (offsets : List Nat),
    offsets ≠ [] → (∀ o ∈ offsets, o < W) →
    referenceSchemaAddress h offsets
        = ofChanRead (specChainResolve h.chan 0 offsets) ∧
    (∀ a tr, referenceSchemaAddressT h offsets = (.ok a, tr) →
      tr.length = offsets.length - 1) ∧
    (∀ o, offsets = [o] → referenceSchemaAddressT h offsets = (.ok o, [])) := by
  intro h offsets hne hb
  cases offsets with
  | nil => exact absurd rfl hne
  | cons o0 rest =>
    cases rest with
    | nil =>
      have hb0 : o0 < W := hb o0 (by simp)
      refine ⟨?_, ?_, ?_⟩
      · simp [referenceSchemaAddress, referenceSchemaAddressT, specChainResolve,
          ofChanRead, wrap, Nat.mod_eq_of_lt hb0]
      · intro a tr hat
        simp only [referenceSchemaAddressT] at hat
        injection hat with h1 h2
        rw [← h2]
        rfl
      · intro o ho
        simp only [List.cons.injEq] at ho
        rw [ho.1]
        rfl
    | cons o1 rest2 =>
      obtain ⟨os2, last, hl⟩ :
          ∃ os2 last, (o1 :: rest2 : List Nat) = os2 ++ [last] := by
        rcases List.eq_nil_or_concat (o1 :: rest2) with hnil | ⟨L, b, hLb⟩
        · exact absurd hnil (by simp)
        · exact ⟨L, b, by rw [hLb, List.concat_eq_append]⟩
      have hb0 : o0 < W := hb o0 (by simp)
      refine ⟨?_, ?_, ?_⟩
      · rw [show (o0 :: o1 :: rest2 : List Nat) = o0 :: (os2 ++ [last]) by
          rw [← hl]]
        rw [refSchemaAddress_concat h os2 o0 last hb0,
          specChainResolve_concat h.chan os2 0 o0 last]
        have hz : wrap (0 + o0) = o0 := by
          simp [wrap, Nat.mod_eq_of_lt hb0]
        rw [hz]
      · intro a tr hat
        simp only [referenceSchemaAddressT] at hat
        cases hu : CS2Handle.readU64T h Module.Absolute
            ((o0 :: o1 :: rest2).dropLast) with
        | mk f t =>
          rw [hu] at hat
          cases f with
          | ok v =>
            simp only [finishRef] at hat
            injection hat with h1 h2
            rw [← h2,
              readU64T_ok_trace h Module.Absolute
                ((o0 :: o1 :: rest2).dropLast) v t hu,
              List.length_dropLast]
          | error e => simp [finishRef] at hat
          | panicked p => simp [finishRef] at hat
      · intro o ho
        simp at ho

/-- C1 witness: on the chain [0, 8, 4] against a channel whose pointer
read at address a yields 2a + 100, reference_schema resolves the address
(2 * (2 * 0 + 100 + 8) + 100) + 4 = 320, matching the spec formula, with
a dereference trace of length two and none for the singleton chain [7]. -/
theorem c1_witness :
    referenceSchemaAddress hC1 [0, 8, 4] = .ok 320 ∧
    referenceSchemaAddressT hC1 [7] = (.ok 7, []) := by
  constructor
  · have h := (c1_reference_schema_resolution hC1 [0, 8, 4] (by simp)
      (by decide)).1
    exact h.trans (by decide)
  · exact (c1_reference_schema_resolution hC1 [7] (by simp) (by decide)).2.2
      7 rfl

end CS2Verify
